import Mathlib

/-!
Verification development for `sitekit/web/assets.go` (kennylevinsen/gokit):
a content-addressed static-asset registry with a lazy materialization
pipeline (load, preprocess, gzip, sha1-fingerprint, publish), an HTTP
serving accessor, a CSS/source-map reference rewriter, and a
version-invalidated template cache.

Modelling conventions:
- Byte slices (`[]byte`) and strings are both modelled as Lean `String`
  (ASCII assumption; Go `len` in bytes equals character count here).
  A nil byte slice is conflated with the empty string except where the
  code tests `== nil`; the `File.Content` field, whose nil-ness is
  tested, is `Option String` (`none` = Go nil = unmaterialized).
- Go maps are association lists with `alookup`/`aset` (assignment
  replaces the binding if the key is present, else appends).
- External collaborators (the filesystem, MIME detection, gzip, sha1,
  the template engine's parser and executor, the clock used for the
  `Expires` header) are fields of an `Env` record of deterministic
  functions, as the specification treats them as black boxes.
- The recursive materialization pipeline (`Get` and the reference
  rewriter call each other through the registry) is given explicit
  fuel; every recursive call decreases the fuel, and exhaustion is an
  error result.  The Go code has no such guard and can recurse forever
  on cyclic references.
- Go `version` is a machine `int`; it is only ever incremented, and the
  spec treats it as an unbounded counter, so it is modelled as `Nat`.
-/

/-- Association-list lookup, modelling Go map indexing (`m[k]`). -/
def alookup {α : Type} : List (String × α) → String → Option α
  | [], _ => none
  | (k, v) :: t, k' => if k' = k then some v else alookup t k'

/-- Association-list assignment, modelling Go map assignment (`m[k] = v`):
replaces the binding if the key is present, otherwise appends it. -/
def aset {α : Type} : List (String × α) → String → α → List (String × α)
  | [], k, v => [(k, v)]
  | (k', v') :: t, k, v =>
      if k' = k then (k, v) :: t else (k', v') :: aset t k v

/-- Association-list deletion, modelling Go `delete(m, k)`. -/
def adel {α : Type} : List (String × α) → String → List (String × α)
  | [], _ => []
  | (k', v') :: t, k => if k' = k then adel t k else (k', v') :: adel t k

/-- Whether the first list is an initial segment of the second. -/
def isPreL : List Char → List Char → Bool
  | [], _ => true
  | _ :: _, [] => false
  | a :: as, b :: bs => a = b && isPreL as bs

/-- Substring containment on char lists (helper for `strContains`). -/
def containsL : List Char → List Char → Bool
  | hay, needle =>
    isPreL needle hay ||
      (match hay with
       | [] => false
       | _ :: t => containsL t needle)

/-- Models Go `strings.Contains(s, sub)`. -/
def strContains (s sub : String) : Bool := containsL s.data sub.data

/-- Models the Go slice expression `s[n:]` (byte slicing; ASCII assumption). -/
def strDrop (s : String) (n : Nat) : String := String.mk (s.data.drop n)

/-- Whitespace class of Go's regexp `\s` (Perl class: tab, newline,
form feed, carriage return, space). -/
def perlSpace (c : Char) : Bool :=
  c = '\t' || c = '\n' || c = '\x0c' || c = '\r' || c = ' '

/-- ASCII fragment of Go `unicode.IsSpace` (adds vertical tab to `\s`). -/
def goUnicodeSpace (c : Char) : Bool := perlSpace c || c = '\x0b'

/-- Models Go `strings.TrimSpace` (ASCII whitespace). -/
def trimSpace (s : String) : String :=
  String.mk (((s.data.dropWhile goUnicodeSpace).reverse.dropWhile goUnicodeSpace).reverse)

/-- Split a char list on the path separator; models the slash-separated
components of a path (empty components preserved). -/
def splitSlash : List Char → List (List Char)
  | [] => [[]]
  | '/' :: rest => [] :: splitSlash rest
  | c :: rest =>
    match splitSlash rest with
    | [] => [[c]]
    | h :: t => (c :: h) :: t

/-- Component-stack evaluator for `goClean`: drops empty and `.`
components, resolves `..` against the stack (kept when the path is not
rooted and the stack is empty or holds only `..`). -/
def cleanStack (rooted : Bool) : List (List Char) → List (List Char) → List (List Char)
  | st, [] => st
  | st, c :: cs =>
    if c = [] || c = ['.'] then cleanStack rooted st cs
    else if c = ['.', '.'] then
      match st with
      | [] => if rooted then cleanStack rooted [] cs else cleanStack rooted [['.', '.']] cs
      | top :: rest =>
        if top = ['.', '.'] then cleanStack rooted (c :: st) cs
        else cleanStack rooted rest cs
    else cleanStack rooted (c :: st) cs

/-- Join components with the path separator. -/
def joinSlash : List (List Char) → List Char
  | [] => []
  | [c] => c
  | c :: rest => c ++ '/' :: joinSlash rest

/-- Models Go `path/filepath.Clean` on slash-separated paths. -/
def goClean (p : String) : String :=
  match p.data with
  | [] => "."
  | c :: rest =>
    let rooted := c = '/'
    let parts := (cleanStack rooted [] (splitSlash (c :: rest))).reverse
    let body := joinSlash parts
    if rooted then String.mk ('/' :: body)
    else if body = [] then "." else String.mk body

/-- Models Go `filepath.Dir`: everything through the final separator,
cleaned (`"."` when there is no separator). -/
def goDir (p : String) : String :=
  goClean (String.mk ((p.data.reverse.dropWhile (fun c => !(c = '/'))).reverse))

/-- Models Go `filepath.Join(a, b)`: skip leading empty elements, join
with the separator, clean. -/
def goJoin (a b : String) : String :=
  if a = "" then (if b = "" then "" else goClean b)
  else goClean (a ++ "/" ++ b)

/-- Scan helper for `goExt`: walks the reversed path, accumulating the
candidate extension; stops empty at a separator, succeeds at a dot. -/
def extRev : List Char → List Char → String
  | [], _ => ""
  | c :: rest, acc =>
    if c = '/' then ""
    else if c = '.' then String.mk ('.' :: acc)
    else extRev rest (c :: acc)

/-- Models Go `filepath.Ext`: the suffix starting at the final dot of
the final slash-separated element, `""` if there is none. -/
def goExt (p : String) : String := extRev p.data.reverse []

/-- Lower-case hex digit for a nibble (models `encoding/hex`). -/
def hexDigit (n : Nat) : Char :=
  if n < 10 then Char.ofNat (48 + n) else Char.ofNat (87 + n)

/-- Models Go `hex.EncodeToString`: two lower-case hex digits per byte. -/
def hexEncode (bytes : List Nat) : String :=
  String.mk (bytes.foldr (fun b acc => hexDigit (b % 256 / 16) :: hexDigit (b % 16) :: acc) [])

/-- A registered asset; models the Go `File` struct.  Field defaults are
the Go zero values of a fresh `&File{path: file}` literal. -/
structure File where
  path : String
  Content : Option String := none
  ContentGZipped : String := ""
  Hash : List Nat := []
  HashString : String := ""
  ContentType : String := ""
deriving DecidableEq, Repr

/-- A merged template namespace; models `html/template.Template` at the
granularity the code observes: the set of associated names with their
parse trees (`none` = associated but tree-less, e.g. a fresh shell from
`template.New`).  `Lookup(name) != nil` is `(alookup ns name).isSome`;
`AddParseTree(name, tree)` binds `name` to `some tree`. -/
structure Template where
  ns : List (String × Option String)
deriving DecidableEq, Repr

/-- A preprocessor in the chain: the two built-in reference rewriters,
or an external transform.  The spec (sections 1-2) treats externally
registered preprocessors as pure transforms of the content; arbitrary
Go callbacks that mutate the registry are outside its model. -/
inductive Preproc where
  | cssUrl
  | sourceMap
  | transform (f : String → Except String String)

/-- Which of the two built-in rewrite patterns is being applied. -/
inductive Pattern where
  | cssUrl
  | sourceMap
deriving DecidableEq, Repr

/-- The asset registry; models the Go `Assets` struct.  The reader/writer
lock is not modelled: the embedding is sequential, each operation atomic.
`templateFuncMap` only influences template execution, which the spec
treats as opaque, so it is not carried in the state. -/
structure Assets where
  version : Nat
  baseURL : String
  preprocessors : List (String × List Preproc)
  entries : List (String × File)
  byChecksum : List (String × File)
  templateCache : List (String × Template)
  templateCacheVersion : Nat

/-- External collaborators, per the spec's interface contracts: all are
deterministic functions.  `readFile` returns `none` on I/O error;
`parse` models compiling one source as an independent template unit and
returning its named sub-templates (`temp.Templates()`); `execute`
models `ExecuteTemplate` of a named sub-template; `expires` is the
formatted one-year-forward timestamp. -/
structure Env where
  readFile : String → Option String
  mimeByExt : String → String
  sniff : String → String
  gzip : String → String
  sha1 : String → List Nat
  parse : String → String → Except String (List (String × String))
  execute : Template → String → Except String String
  expires : String

/-- An HTTP response writer: accumulated headers, status, body.
`Write` before `WriteHeader` implies status 200 (Go semantics). -/
structure ResponseWriter where
  headers : List (String × String) := []
  status : Option Nat := none
  body : String := ""
deriving DecidableEq, Repr

/-- Models `w.Header().Set(k, v)`. -/
def rwSetHeader (w : ResponseWriter) (k v : String) : ResponseWriter :=
  { w with headers := aset w.headers k v }

/-- Models `w.WriteHeader(code)` (later calls are ignored). -/
def rwWriteHeader (w : ResponseWriter) (code : Nat) : ResponseWriter :=
  if w.status.isSome then w else { w with status := some code }

/-- Models `w.Write(...)`: sets status 200 if unset, appends to the body. -/
def rwWrite (w : ResponseWriter) (s : String) : ResponseWriter :=
  { rwWriteHeader w 200 with body := w.body ++ s }

/-- Models assets.go lines 297-301: plain-text error response.
`fmt.Fprintln` appends a newline to the message. -/
def httpError (w : ResponseWriter) (code : Nat) (message : String) : ResponseWriter :=
  rwWrite (rwWriteHeader (rwSetHeader w "Content-Type" "text/plain; charset=utf-8") code)
    (message ++ "\n")

/-- Models `AddFile` (lines 122-130): insert a fresh unmaterialized
entry at the virtual path (overwriting any prior entry) and increment
the version counter. -/
def AddFile (a : Assets) (file virtualPath : String) : Assets :=
  { a with
      entries := aset a.entries virtualPath { path := file }
      version := a.version + 1 }

/-- Models `AddPreprocessor` (lines 103-113): append to the extension's
chain (creating it if absent). -/
def AddPreprocessor (a : Assets) (extension : String) (processor : Preproc) : Assets :=
  { a with
      preprocessors :=
        aset a.preprocessors extension (((alookup a.preprocessors extension).getD []) ++ [processor]) }

/-- Models `ClearPreprocessors` (lines 115-120). -/
def ClearPreprocessors (a : Assets) (extension : String) : Assets :=
  { a with preprocessors := adel a.preprocessors extension }

/-- Models `NewAssets` (lines 45-79): zeroed registry with the two
built-in CSS reference rewriters registered.  The template function map
(`jscode`/`asset`/`assetinline`) is modelled separately by `assetFn`
and `assetinlineFn`. -/
def NewAssets (baseURL : String) : Assets :=
  AddPreprocessor
    (AddPreprocessor
      { version := 0, baseURL := baseURL, preprocessors := [], entries := [],
        byChecksum := [], templateCache := [], templateCacheVersion := 0 }
      ".css" .cssUrl)
    ".css" .sourceMap

/-- Models `getRooted` (lines 303-308).  The Go code indexes
`targetFile[0]`, which panics on the empty string; the panic is the
`none` result.  Otherwise: a path starting with the separator is kept
as-is, anything else is joined to the directory of the current virtual
path. -/
def getRooted (fromFile targetFile : String) : Option String :=
  match targetFile.data with
  | [] => none
  | c :: _ =>
    if c = '/' then some targetFile
    else some (goJoin (goDir fromFile) targetFile)

/-- Leftmost match attempt at the head of the input for one of the two
compiled patterns, with Go regexp (leftmost-first, greedy) semantics:
`url\([^\)]+\)` and `sourceMappingURL=\S+`.  Returns the matched text
and the remaining input. -/
def patAttempt : Pattern → List Char → Option (List Char × List Char)
  | .cssUrl, l =>
    if isPreL "url(".data l then
      let afterPre := l.drop 4
      let inner := afterPre.takeWhile (fun c => !(c = ')'))
      match afterPre.dropWhile (fun c => !(c = ')')) with
      | ')' :: rest' =>
        if inner.isEmpty then none
        else some ("url(".data ++ inner ++ [')'], rest')
      | _ => none
    else none
  | .sourceMap, l =>
    if isPreL "sourceMappingURL=".data l then
      let afterPre := l.drop 17
      let inner := afterPre.takeWhile (fun c => !perlSpace c)
      if inner.isEmpty then none
      else some ("sourceMappingURL=".data ++ inner, afterPre.drop inner.length)
    else none

/-- The literal prefix stripped from a match (`prefix` argument of
`replaceProcessor`). -/
def patPre : Pattern → String
  | .cssUrl => "url("
  | .sourceMap => "sourceMappingURL="

/-- The literal suffix stripped from a match (`postfix` argument of
`replaceProcessor`). -/
def patPost : Pattern → String
  | .cssUrl => ")"
  | .sourceMap => ""

mutual

/-- Models `Get` (lines 132-190): look up the entry; if absent, fail
Not-Found; if already materialized, return it unchanged; otherwise run
the pipeline: read the backing file, resolve the content type by
extension then content sniffing, apply the extension's preprocessor
chain in order (each may recurse into the registry and mutate it),
gzip and sha1-fingerprint the final content, publish the entry under
its fingerprint in `byChecksum`, and set `Content` last (the Go code
assigns `file.Content` after the `byChecksum` insert; the two tables
alias one object, so the final state holds the materialized entry in
both).  Errors return the registry state reached so far, as the Go
registry keeps mutations made by nested resolutions before a failure. -/
def Get (env : Env) (fuel : Nat) (a : Assets) (virtualPath : String) :
    Except String File × Assets :=
  match fuel with
  | 0 => (.error "out of fuel", a)
  | fuel' + 1 =>
    match alookup a.entries virtualPath with
    | none => (.error ("File Not Found: " ++ virtualPath), a)
    | some file =>
      match file.Content with
      | some _ => (.ok file, a)
      | none =>
        match env.readFile file.path with
        | none => (.error ("read error: " ++ file.path), a)
        | some raw =>
          let extension := goExt file.path
          let ctByExt := env.mimeByExt extension
          let contentType := if ctByExt = "" then env.sniff raw else ctByExt
          match runPreprocs env fuel' a virtualPath ((alookup a.preprocessors extension).getD []) raw with
          | (.error e, a1) => (.error e, a1)
          | (.ok finalContent, a1) =>
            let hs := hexEncode (env.sha1 finalContent)
            let pubFile : File :=
              { path := file.path, Content := none,
                ContentGZipped := env.gzip finalContent,
                Hash := env.sha1 finalContent, HashString := hs,
                ContentType := contentType }
            let a2 := { a1 with byChecksum := aset a1.byChecksum hs pubFile }
            let finalFile : File := { pubFile with Content := some finalContent }
            let a3 := { a2 with
                          entries := aset a2.entries virtualPath finalFile,
                          byChecksum := aset a2.byChecksum hs finalFile }
            (.ok finalFile, a3)

/-- Models the preprocessor loop of `Get` (lines 158-167): apply each
transform in registration order to the previous output, aborting on
the first error. -/
def runPreprocs (env : Env) (fuel : Nat) (a : Assets) (path : String)
    (ps : List Preproc) (content : String) : Except String String × Assets :=
  match fuel with
  | 0 => (.error "out of fuel", a)
  | fuel' + 1 =>
    match ps with
    | [] => (.ok content, a)
    | p :: rest =>
      match applyPreproc env fuel' a p path content with
      | (.error e, a') => (.error e, a')
      | (.ok content', a') => runPreprocs env fuel' a' path rest content'

/-- Dispatch one preprocessor: the built-in rewriters
`AssetCssPreprocessor` / `AssetSourceMapPreprocessor` (lines 314-320)
or an external pure transform. -/
def applyPreproc (env : Env) (fuel : Nat) (a : Assets) (p : Preproc)
    (path : String) (content : String) : Except String String × Assets :=
  match fuel with
  | 0 => (.error "out of fuel", a)
  | fuel' + 1 =>
    match p with
    | .transform f =>
      match f content with
      | .error e => (.error e, a)
      | .ok content' => (.ok content', a)
    | .cssUrl => replaceProcessor env fuel' a path content .cssUrl
    | .sourceMap => replaceProcessor env fuel' a path content .sourceMap

/-- Models `replaceProcessor` (lines 322-365): rewrite every
non-overlapping match of the pattern, remembering the last resolution
error; if any resolution failed, the whole rewrite is discarded and the
error returned (`return nil, replaceErr`), though registry mutations
made by earlier successful resolutions persist. -/
def replaceProcessor (env : Env) (fuel : Nat) (a : Assets) (path : String)
    (content : String) (pat : Pattern) : Except String String × Assets :=
  match fuel with
  | 0 => (.error "out of fuel", a)
  | fuel' + 1 =>
    match replLoop env fuel' pat path content.data a none with
    | (_, a', some err) => (.error err, a')
    | (out, a', none) => (.ok (String.mk out), a')

/-- Models `regex.ReplaceAllFunc` scanning left to right: at each
position, either consume a leftmost match (replacing it via
`doReplace`) or copy one character.  Fuel bounds the scan; callers pass
at least the content length plus one so the scan never runs out. -/
def replLoop (env : Env) (fuel : Nat) (pat : Pattern) (path : String)
    (l : List Char) (a : Assets) (e : Option String) :
    List Char × Assets × Option String :=
  match fuel with
  | 0 => (l, a, e)
  | fuel' + 1 =>
    match l with
    | [] => ([], a, e)
    | c :: rest =>
      match patAttempt pat (c :: rest) with
      | some (m, rest') =>
        match doReplace env fuel' pat path m a e with
        | (repl, a', e') =>
          match replLoop env fuel' pat path rest' a' e' with
          | (out, a'', e'') => (repl ++ out, a'', e'')
      | none =>
        match replLoop env fuel' pat path rest a e with
        | (out, a', e') => (c :: out, a', e')

/-- Models the body of the closure of `replaceProcessor` (lines
324-358): strip the prefix/suffix literals from the match, trim
whitespace, root the reference, resolve its public URL (recursing into
the registry), and emit prefix + URL + suffix; any failure records the
error and leaves the match unchanged.  A `getRooted` panic (empty
reference) is also treated as the recorded error here; no claim
depends on that branch. -/
def doReplace (env : Env) (fuel : Nat) (pat : Pattern) (path : String)
    (m : List Char) (a : Assets) (e : Option String) :
    List Char × Assets × Option String :=
  match fuel with
  | 0 => (m, a, e)
  | fuel' + 1 =>
    let fileRef := String.mk ((m.take (m.length - (patPost pat).length)).drop (patPre pat).length)
    match getRooted path (trimSpace fileRef) with
    | none => (m, a, some "index out of range")
    | some rootedPath =>
      match GetUrl env fuel' a rootedPath with
      | (.error err, a') => (m, a', some err)
      | (.ok url, a') => (((patPre pat) ++ url ++ (patPost pat)).data, a', e)

/-- Models `GetUrl` (lines 192-199): resolve (materializing if needed)
and return `baseURL + fingerprint`. -/
def GetUrl (env : Env) (fuel : Nat) (a : Assets) (virtualPath : String) :
    Except String String × Assets :=
  match fuel with
  | 0 => (.error "out of fuel", a)
  | fuel' + 1 =>
    match Get env fuel' a virtualPath with
    | (.error e, a') => (.error e, a')
    | (.ok file, a') => (.ok (a'.baseURL ++ file.HashString), a')

end

/-- The registry state at the publication instant inside `Get`: the Go
code inserts the entry into `byChecksum` (line 182) and only afterwards
assigns `file.Content` (line 186, "done last" per its comment).  This
definition replays `Get` up to and including the insert and stops there,
returning `none` on every path that does not reach it (unknown path,
already materialized, read or preprocessing failure, fuel).  It lets the
in-between state be examined; `Get` itself continues by setting
`Content` through the shared pointer, which updates both tables. -/
def publishPointState (env : Env) (fuel : Nat) (a : Assets) (virtualPath : String) :
    Option Assets :=
  match fuel with
  | 0 => none
  | fuel' + 1 =>
    match alookup a.entries virtualPath with
    | none => none
    | some file =>
      match file.Content with
      | some _ => none
      | none =>
        match env.readFile file.path with
        | none => none
        | some raw =>
          let extension := goExt file.path
          let ctByExt := env.mimeByExt extension
          let contentType := if ctByExt = "" then env.sniff raw else ctByExt
          match runPreprocs env fuel' a virtualPath ((alookup a.preprocessors extension).getD []) raw with
          | (.error _, _) => none
          | (.ok finalContent, a1) =>
            let hs := hexEncode (env.sha1 finalContent)
            let pubFile : File :=
              { path := file.path, Content := none,
                ContentGZipped := env.gzip finalContent,
                Hash := env.sha1 finalContent, HashString := hs,
                ContentType := contentType }
            some { a1 with byChecksum := aset a1.byChecksum hs pubFile }

/-- Models `Serve` (lines 201-226).  The request is its
`Accept-Encoding` header value (`none` models a nil `*http.Request`;
`Header.Get` of a missing header is `""`).  Note the code only checks
`len(url) < len(baseURL)` and then slices at `len(baseURL)`: it never
verifies that the URL actually begins with `baseURL`. -/
def Serve (env : Env) (a : Assets) (url : String) (w : ResponseWriter)
    (r : Option String) : ResponseWriter :=
  if url.length < a.baseURL.length then
    httpError w 404 "404 - File not found"
  else
    let checksum := strDrop url a.baseURL.length
    match alookup a.byChecksum checksum with
    | none => httpError w 404 "404 - File not found"
    | some file =>
      let w := rwSetHeader w "Content-Type" file.ContentType
      let w := rwSetHeader w "Expires" env.expires
      match r with
      | some accept =>
        if strContains accept "gzip" then
          rwWrite (rwSetHeader w "Content-Encoding" "gzip") file.ContentGZipped
        else rwWrite w (file.Content.getD "")
      | none => rwWrite w (file.Content.getD "")

/-- The name of the empty merged namespace created by
`template.New("temp-outer-template-shell")` in `GetTemplate`. -/
def shellName : String := "temp-outer-template-shell"

/-- The fresh merged namespace: `template.New` associates the shell's
own (tree-less) name, so `Lookup(shellName)` is non-nil on it. -/
def newShell : Template := { ns := [(shellName, none)] }

/-- Models the inner loop of `GetTemplate` (lines 281-286): for each
named sub-template of one compiled unit, `AddParseTree` it into the
merged namespace only if `Lookup` finds no template of that name
(first registration wins).  Within one unit the names are distinct (Go
map), so the fold order carries no information. -/
def mergeSubs (t : Template) (subs : List (String × String)) : Template :=
  subs.foldl
    (fun t nt =>
      if (alookup t.ns nt.1).isSome then t
      else { ns := t.ns ++ [(nt.1, some nt.2)] })
    t

/-- Models the path loop of `GetTemplate` (lines 269-288): skip empty
paths; resolve each path through the registry, compile it as an
independent unit, and merge its sub-templates first-wins.  A
compilation error aborts, prefixed with the offending path. -/
def buildTemplate (env : Env) (fuel : Nat) (a : Assets) (paths : List String)
    (t : Template) : Except String Template × Assets :=
  match paths with
  | [] => (.ok t, a)
  | path :: rest =>
    if path = "" then buildTemplate env fuel a rest t
    else
      match Get env fuel a path with
      | (.error e, a') => (.error e, a')
      | (.ok file, a') =>
        match env.parse path (file.Content.getD "") with
        | .error e => (.error (path ++ ": " ++ e), a')
        | .ok subs => buildTemplate env fuel a' rest (mergeSubs t subs)

/-- The template cache key (line 258): the path list joined with `"<"`. -/
def cacheKeyOf (paths : List String) : String := String.intercalate "<" paths

/-- The wholesale cache reset of `GetTemplate` (lines 250-255): re-stamp
the cache version and discard every cached namespace. -/
def resetCache (a : Assets) : Assets :=
  { a with templateCacheVersion := a.version, templateCache := [] }

/-- Models `GetTemplate` (lines 248-295): if the registry version
differs from the cache's stamped version, discard and re-stamp the
whole cache first; then look up the joined-path cache key and return a
hit unchanged; on a miss, build the merged namespace and store it under
the key (not stored on failure, but the reset persists). -/
def GetTemplate (env : Env) (fuel : Nat) (a : Assets) (templatePathArr : List String) :
    Except String Template × Assets :=
  let a := if a.version ≠ a.templateCacheVersion then resetCache a else a
  let cacheKey := cacheKeyOf templatePathArr
  match alookup a.templateCache cacheKey with
  | some tmpl => (.ok tmpl, a)
  | none =>
    match buildTemplate env fuel a templatePathArr newShell with
    | (.error e, a') => (.error e, a')
    | (.ok tmpl, a') =>
      (.ok tmpl, { a' with templateCache := aset a'.templateCache cacheKey tmpl })

/-- Models `RenderNamedTemplate` (lines 232-246): compile, then execute
the named sub-template; either failure is both written to the response
as a 500 with the error text and returned to the caller. -/
def RenderNamedTemplate (env : Env) (fuel : Nat) (a : Assets)
    (templatePathArr : List String) (name : String) (w : ResponseWriter) :
    Except String Unit × ResponseWriter × Assets :=
  match GetTemplate env fuel a templatePathArr with
  | (.error e, a') => (.error e, httpError w 500 e, a')
  | (.ok t, a') =>
    match env.execute t name with
    | .error e => (.error e, httpError w 500 e, a')
    | .ok out => (.ok (), rwWrite w out, a')

/-- Models `RenderTemplate` (lines 228-230): render the sub-template
named by the last path of the list.  The Go code indexes
`templatePathArr[len(templatePathArr)-1]`; on the empty list the index
is `-1` and the access panics, modelled as the `none` result. -/
def RenderTemplate (env : Env) (fuel : Nat) (a : Assets)
    (templatePathArr : List String) (w : ResponseWriter) :
    Option (Except String Unit × ResponseWriter × Assets) :=
  match templatePathArr.getLast? with
  | none => none
  | some name => some (RenderNamedTemplate env fuel a templatePathArr name w)

/-- Result of calling one of the registered template functions: Go's
`(string, error)` return, or a runtime panic. -/
inductive FnResult where
  | ok (s : String)
  | err (msg : String)
  | panicked
deriving DecidableEq, Repr

/-- Models the `"asset"` template function (lines 57-62): the Go code
indexes `virtualPath[0]`, which panics on the empty string; otherwise
it rejects arguments not starting with `'/'` and delegates to
`GetUrl`. -/
def assetFn (env : Env) (fuel : Nat) (a : Assets) (virtualPath : String) :
    FnResult × Assets :=
  match virtualPath.data with
  | [] => (.panicked, a)
  | c :: _ =>
    if !(c = '/') then (.err "path argument must start with '/'", a)
    else
      match GetUrl env fuel a virtualPath with
      | (.error e, a') => (.err e, a')
      | (.ok url, a') => (.ok url, a')

/-- Models the `"assetinline"` template function (lines 63-72): same
guard (and the same panic on the empty string), then returns the raw
materialized content of the asset. -/
def assetinlineFn (env : Env) (fuel : Nat) (a : Assets) (virtualPath : String) :
    FnResult × Assets :=
  match virtualPath.data with
  | [] => (.panicked, a)
  | c :: _ =>
    if !(c = '/') then (.err "path argument must start with '/'", a)
    else
      match Get env fuel a virtualPath with
      | (.error e, a') => (.err e, a')
      | (.ok file, a') => (.ok (file.Content.getD ""), a')

/-- One registry operation, for stating whole-lifetime invariants.
`AddDirectory` is a walk issuing `addFile` operations, so sequences of
`Op`s cover it; `Serve` reads the registry without mutating it. -/
inductive Op where
  | addFile (file virtualPath : String)
  | getOp (virtualPath : String)
  | getUrlOp (virtualPath : String)
  | addPre (extension : String) (p : Preproc)
  | clearPre (extension : String)
  | getTemplateOp (paths : List String)
  | serveOp (url : String) (accept : Option String)

/-- The registry state after one operation (results discarded). -/
def stepOp (env : Env) (fuel : Nat) (a : Assets) : Op → Assets
  | .addFile f p => AddFile a f p
  | .getOp p => (Get env fuel a p).2
  | .getUrlOp p => (GetUrl env fuel a p).2
  | .addPre ext pr => AddPreprocessor a ext pr
  | .clearPre ext => ClearPreprocessors a ext
  | .getTemplateOp paths => (GetTemplate env fuel a paths).2
  | .serveOp _ _ => a

/-- The registry state after a sequence of operations. -/
def runOps (env : Env) (fuel : Nat) : Assets → List Op → Assets
  | a, [] => a
  | a, op :: ops => runOps env fuel (stepOp env fuel a op) ops

/-- The materialized fields of an entry are mutually consistent for a
final content `c`: content stored, compressed form is its gzip,
fingerprint is the sha1 digest of `c` (not of the raw source) with its
hex encoding. -/
def FileConsistent (env : Env) (f : File) (c : String) : Prop :=
  f.Content = some c ∧ f.ContentGZipped = env.gzip c ∧
    f.Hash = env.sha1 c ∧ f.HashString = hexEncode (env.sha1 c)

/-- Registry invariant: every materialized entry in `entries` has
consistent materialized fields, and every entry reachable through
`byChecksum` is materialized, consistent, and keyed by its own
fingerprint. -/
def InvAssets (env : Env) (a : Assets) : Prop :=
  (∀ p f c, alookup a.entries p = some f → f.Content = some c → FileConsistent env f c) ∧
  (∀ cs f, alookup a.byChecksum cs = some f →
    ∃ c, FileConsistent env f c ∧ cs = f.HashString)

/-- State evolution contract of the materialization pipeline: only the
two entry tables change (version, base URL, preprocessor chains and the
template cache are untouched), and the registry invariant is preserved. -/
def Preserves (env : Env) (a a' : Assets) : Prop :=
  a'.version = a.version ∧ a'.baseURL = a.baseURL ∧
    a'.preprocessors = a.preprocessors ∧
    a'.templateCache = a.templateCache ∧
    a'.templateCacheVersion = a.templateCacheVersion ∧
    (InvAssets env a → InvAssets env a')

theorem Preserves.rfl' (env : Env) (a : Assets) : Preserves env a a :=
  ⟨rfl, rfl, rfl, rfl, rfl, id⟩

theorem Preserves.trans' {env : Env} {a b c : Assets}
    (h1 : Preserves env a b) (h2 : Preserves env b c) : Preserves env a c := by
  obtain ⟨v1, b1, p1, t1, s1, i1⟩ := h1
  obtain ⟨v2, b2, p2, t2, s2, i2⟩ := h2
  exact ⟨v2.trans v1, b2.trans b1, p2.trans p1, t2.trans t1, s2.trans s1, fun h => i2 (i1 h)⟩

theorem alookup_aset {α : Type} (l : List (String × α)) (k : String) (v : α) (k' : String) :
    alookup (aset l k v) k' = if k' = k then some v else alookup l k' := by
  induction l with
  | nil => simp [aset, alookup]
  | cons kv t ih =>
    obtain ⟨k0, v0⟩ := kv
    by_cases h : k0 = k
    · subst h
      by_cases hk : k' = k0 <;> simp [aset, alookup, hk]
    · by_cases hk : k' = k0
      · subst hk
        simp [aset, alookup, h, Ne.symm h]
      · simp [aset, alookup, h, hk, ih]

theorem aset_aset_same {α : Type} (l : List (String × α)) (k : String) (v v' : α) :
    aset (aset l k v) k v' = aset l k v' := by
  induction l with
  | nil => simp [aset]
  | cons kv t ih =>
    obtain ⟨k0, v0⟩ := kv
    by_cases h : k0 = k <;> simp [aset, h, ih]

/-- Publishing a freshly materialized entry preserves the invariant:
the final record is inserted at its fingerprint key (overwriting the
momentary `Content`-less record at the same key) and at its virtual
path. -/
theorem InvAssets_update (env : Env) (a1 : Assets) (vp hs : String) (ff pf : File)
    (c : String) (hInv : InvAssets env a1)
    (hC : ff.Content = some c) (hG : ff.ContentGZipped = env.gzip c)
    (hH : ff.Hash = env.sha1 c) (hS : ff.HashString = hexEncode (env.sha1 c))
    (hkey : hs = hexEncode (env.sha1 c)) :
    InvAssets env
      { a1 with entries := aset a1.entries vp ff,
                byChecksum := aset (aset a1.byChecksum hs pf) hs ff } := by
  obtain ⟨hE, hB⟩ := hInv
  constructor
  · intro p f c' hlook hcont
    simp only [alookup_aset] at hlook
    by_cases hp : p = vp
    · simp only [hp, if_pos rfl] at hlook
      cases hlook
      have : c' = c := by
        rw [hC] at hcont
        exact (Option.some.injEq _ _).mp hcont.symm ▸ rfl
      subst this
      exact ⟨hC, hG, hH, hS⟩
    · simp only [if_neg hp] at hlook
      exact hE p f c' hlook hcont
  · intro cs f hlook
    simp only [aset_aset_same, alookup_aset] at hlook
    by_cases hcs : cs = hs
    · simp only [hcs, if_pos rfl] at hlook
      cases hlook
      exact ⟨c, ⟨hC, hG, hH, hS⟩, by rw [hcs, hkey, hS]⟩
    · simp only [if_neg hcs] at hlook
      exact hB cs f hlook

/-- Registering a file preserves the invariant: the new entry is
unmaterialized and the checksum table is untouched. -/
theorem InvAssets_addFile (env : Env) (a : Assets) (f vp : String)
    (hInv : InvAssets env a) : InvAssets env (AddFile a f vp) := by
  obtain ⟨hE, hB⟩ := hInv
  constructor
  · intro p fl c hlook hcont
    simp only [AddFile, alookup_aset] at hlook
    by_cases hp : p = vp
    · simp only [hp, if_pos rfl] at hlook
      cases hlook
      simp at hcont
    · simp only [if_neg hp] at hlook
      exact hE p fl c hlook hcont
  · intro cs fl hlook
    exact hB cs fl hlook


theorem pipelinePreserves (env : Env) : ∀ fuel : Nat,
    (∀ a vp, Preserves env a (Get env fuel a vp).2) ∧
    (∀ a path ps c, Preserves env a (runPreprocs env fuel a path ps c).2) ∧
    (∀ a p path c, Preserves env a (applyPreproc env fuel a p path c).2) ∧
    (∀ a path c pat, Preserves env a (replaceProcessor env fuel a path c pat).2) ∧
    (∀ pat path l a e, Preserves env a (replLoop env fuel pat path l a e).2.1) ∧
    (∀ pat path m a e, Preserves env a (doReplace env fuel pat path m a e).2.1) ∧
    (∀ a vp, Preserves env a (GetUrl env fuel a vp).2) := by
  intro fuel
  induction fuel with
  | zero =>
    refine ⟨?_, ?_, ?_, ?_, ?_, ?_, ?_⟩ <;> intros <;> exact Preserves.rfl' env _
  | succ n ih =>
    obtain ⟨ihGet, ihRun, ihApply, ihRepl, ihLoop, ihDo, ihUrl⟩ := ih
    refine ⟨?_, ?_, ?_, ?_, ?_, ?_, ?_⟩
    · -- Get
      intro a vp
      simp only [Get]
      split
      · exact Preserves.rfl' env a
      next file hfe =>
        split
        · exact Preserves.rfl' env a
        · split
          · exact Preserves.rfl' env a
          next raw hraw =>
            split
            next e a1 heq =>
              have h1 := ihRun a vp ((alookup a.preprocessors (goExt file.path)).getD []) raw
              rw [heq] at h1
              exact h1
            next finalContent a1 heq =>
              have h1 := ihRun a vp ((alookup a.preprocessors (goExt file.path)).getD []) raw
              rw [heq] at h1
              refine Preserves.trans' h1 ⟨rfl, rfl, rfl, rfl, rfl, fun hInv => ?_⟩
              exact InvAssets_update env a1 vp _ _ _ finalContent hInv rfl rfl rfl rfl rfl
    · -- runPreprocs
      intro a path ps c
      simp only [runPreprocs]
      split
      · exact Preserves.rfl' env a
      next p rest =>
        split
        next e a' heq =>
          have h1 := ihApply a p path c
          rw [heq] at h1
          exact h1
        next c' a' heq =>
          have h1 := ihApply a p path c
          rw [heq] at h1
          exact Preserves.trans' h1 (ihRun a' path rest c')
    · -- applyPreproc
      intro a p path c
      simp only [applyPreproc]
      split
      next f =>
        split
        · exact Preserves.rfl' env a
        · exact Preserves.rfl' env a
      · exact ihRepl a path c .cssUrl
      · exact ihRepl a path c .sourceMap
    · -- replaceProcessor
      intro a path c pat
      simp only [replaceProcessor]
      split
      next out a' err heq =>
        have h1 := ihLoop pat path c.data a none
        rw [heq] at h1
        exact h1
      next out a' heq =>
        have h1 := ihLoop pat path c.data a none
        rw [heq] at h1
        exact h1
    · -- replLoop
      intro pat path l a e
      simp only [replLoop]
      split
      · exact Preserves.rfl' env a
      next c rest =>
        split
        next m rest' heq =>
          exact Preserves.trans' (ihDo pat path m a e)
            (ihLoop pat path rest' (doReplace env n pat path m a e).2.1
              (doReplace env n pat path m a e).2.2)
        next heq =>
          exact ihLoop pat path rest a e
    · -- doReplace
      intro pat path m a e
      simp only [doReplace]
      split
      · exact Preserves.rfl' env a
      next rooted heq =>
        split
        next err a' hgu =>
          have h1 := ihUrl a rooted
          rw [hgu] at h1
          exact h1
        next url a' hgu =>
          have h1 := ihUrl a rooted
          rw [hgu] at h1
          exact h1
    · -- GetUrl
      intro a vp
      simp only [GetUrl]
      split
      next e a' hg =>
        have h1 := ihGet a vp
        rw [hg] at h1
        exact h1
      next file a' hg =>
        have h1 := ihGet a vp
        rw [hg] at h1
        exact h1

/-- `Get` leaves everything but the two entry tables unchanged and
keeps the registry invariant. -/
theorem Get_preserves (env : Env) (fuel : Nat) (a : Assets) (vp : String) :
    Preserves env a (Get env fuel a vp).2 :=
  (pipelinePreserves env fuel).1 a vp

/-- `GetUrl` likewise. -/
theorem GetUrl_preserves (env : Env) (fuel : Nat) (a : Assets) (vp : String) :
    Preserves env a (GetUrl env fuel a vp).2 :=
  (pipelinePreserves env fuel).2.2.2.2.2.2 a vp

/-- The path loop of `GetTemplate` only resolves assets, so it obeys
the same contract as `Get`. -/
theorem buildTemplate_preserves (env : Env) (fuel : Nat) :
    ∀ (paths : List String) (a : Assets) (t : Template),
      Preserves env a (buildTemplate env fuel a paths t).2 := by
  intro paths
  induction paths with
  | nil => intro a t; exact Preserves.rfl' env a
  | cons path rest ih =>
    intro a t
    simp only [buildTemplate]
    split
    · exact ih a t
    · split
      next e a' hg =>
        have h1 := Get_preserves env fuel a path
        rw [hg] at h1
        exact h1
      next file a' hg =>
        have h1 := Get_preserves env fuel a path
        rw [hg] at h1
        split
        · exact h1
        · exact Preserves.trans' h1 (ih a' _)

/-- The invariant only concerns the two entry tables, so any state
sharing them satisfies it. -/
theorem InvAssets_of_eq (env : Env) (x y : Assets)
    (he : y.entries = x.entries) (hb : y.byChecksum = x.byChecksum)
    (h : InvAssets env x) : InvAssets env y := by
  obtain ⟨hE, hB⟩ := h
  constructor
  · intro p f c hlook hcont
    rw [he] at hlook
    exact hE p f c hlook hcont
  · intro cs f hlook
    rw [hb] at hlook
    exact hB cs f hlook

/-- `GetTemplate` never changes the version counter, the base URL, the
entry tables or the preprocessor chains, and keeps the registry
invariant (it only rewrites the template cache and its stamp). -/
theorem GetTemplate_effects (env : Env) (fuel : Nat) (a : Assets) (paths : List String) :
    (GetTemplate env fuel a paths).2.version = a.version ∧
    (GetTemplate env fuel a paths).2.baseURL = a.baseURL ∧
    (GetTemplate env fuel a paths).2.preprocessors = a.preprocessors ∧
    (InvAssets env a → InvAssets env (GetTemplate env fuel a paths).2) := by
  by_cases hv : a.version ≠ a.templateCacheVersion
  · simp only [GetTemplate, if_pos hv]
    split
    next tmpl hit =>
      exact ⟨rfl, rfl, rfl, fun h => InvAssets_of_eq env a _ rfl rfl h⟩
    next miss =>
      split
      next e a' hb =>
        have h1 := buildTemplate_preserves env fuel paths (resetCache a) newShell
        rw [hb] at h1
        obtain ⟨v, b, p, _, _, i⟩ := h1
        exact ⟨v, b, p, fun h => i (InvAssets_of_eq env a _ rfl rfl h)⟩
      next tmpl a' hb =>
        have h1 := buildTemplate_preserves env fuel paths (resetCache a) newShell
        rw [hb] at h1
        obtain ⟨v, b, p, _, _, i⟩ := h1
        exact ⟨v, b, p, fun h =>
          InvAssets_of_eq env a' _ rfl rfl (i (InvAssets_of_eq env a _ rfl rfl h))⟩
  · simp only [GetTemplate, if_neg hv]
    split
    next tmpl hit =>
      exact ⟨rfl, rfl, rfl, id⟩
    next miss =>
      split
      next e a' hb =>
        have h1 := buildTemplate_preserves env fuel paths a newShell
        rw [hb] at h1
        obtain ⟨v, b, p, _, _, i⟩ := h1
        exact ⟨v, b, p, i⟩
      next tmpl a' hb =>
        have h1 := buildTemplate_preserves env fuel paths a newShell
        rw [hb] at h1
        obtain ⟨v, b, p, _, _, i⟩ := h1
        exact ⟨v, b, p, fun h => InvAssets_of_eq env a' _ rfl rfl (i h)⟩

/-- A successful `Get` leaves the returned file stored at its virtual
path with its content set, and (given the registry invariant on entry)
the returned file's materialized fields are consistent: in particular
the fingerprint is the sha1 digest of the final (post-preprocessing)
content. -/
theorem Get_ok_spec (env : Env) (fuel : Nat) (a : Assets) (vp : String)
    (file : File) (a' : Assets) (h : Get env fuel a vp = (.ok file, a')) :
    alookup a'.entries vp = some file ∧
    (∃ c, file.Content = some c) ∧
    (InvAssets env a → ∃ c, FileConsistent env file c) := by
  match fuel with
  | 0 => simp [Get] at h
  | n + 1 =>
    simp only [Get] at h
    split at h
    · exact absurd h (by simp)
    next fl hfe =>
      split at h
      next c hc =>
        injection h with h1 h2
        injection h1 with h1
        subst h1
        subst h2
        exact ⟨hfe, ⟨c, hc⟩, fun hInv => ⟨c, hInv.1 vp fl c hfe hc⟩⟩
      next hc =>
        split at h
        · exact absurd h (by simp)
        next raw hraw =>
          split at h
          next e a1 heq => exact absurd h (by simp)
          next finalContent a1 heq =>
            injection h with h1 h2
            injection h1 with h1
            subst h1
            subst h2
            refine ⟨?_, ⟨finalContent, rfl⟩, fun _ => ⟨finalContent, rfl, rfl, rfl, rfl⟩⟩
            simp [alookup_aset]

/-- Materialization happens at most once: a second `Get` of the same
virtual path (with any nonzero fuel) returns the very same record and
leaves the registry untouched. -/
theorem Get_idempotent (env : Env) (fuel k : Nat) (a : Assets) (vp : String)
    (file : File) (a' : Assets) (h : Get env fuel a vp = (.ok file, a')) :
    Get env (k + 1) a' vp = (.ok file, a') := by
  obtain ⟨hlook, ⟨c, hc⟩, _⟩ := Get_ok_spec env fuel a vp file a' h
  simp only [Get, hlook, hc]

/-- Whenever `Get` reaches its publication point (the `byChecksum`
insert of line 182), the just-published record has every materialized
field set except `Content`, which is still unset: the fields are not
published as a unit, `Content` is assigned only afterwards (line 186). -/
theorem publishPoint_content_unset (env : Env) (fuel : Nat) (a : Assets)
    (vp : String) (mid : Assets) (h : publishPointState env fuel a vp = some mid) :
    ∃ cs f c, alookup mid.byChecksum cs = some f ∧ f.Content = none ∧
      f.ContentGZipped = env.gzip c ∧ f.Hash = env.sha1 c ∧
      f.HashString = hexEncode (env.sha1 c) ∧ cs = hexEncode (env.sha1 c) := by
  match fuel with
  | 0 => simp [publishPointState] at h
  | n + 1 =>
    simp only [publishPointState] at h
    split at h
    · exact absurd h (by simp)
    next fl hfe =>
      split at h
      next c hc => exact absurd h (by simp)
      next hc =>
        split at h
        · exact absurd h (by simp)
        next raw hraw =>
          split at h
          next e a1 heq => exact absurd h (by simp)
          next finalContent a1 heq =>
            injection h with h1
            subst h1
            refine ⟨hexEncode (env.sha1 finalContent),
              { path := fl.path, Content := none,
                ContentGZipped := env.gzip finalContent,
                Hash := env.sha1 finalContent,
                HashString := hexEncode (env.sha1 finalContent),
                ContentType :=
                  if env.mimeByExt (goExt fl.path) = "" then env.sniff raw
                  else env.mimeByExt (goExt fl.path) },
              finalContent, ?_, rfl, rfl, rfl, rfl, rfl⟩
            simp [alookup_aset]

theorem String.mk_data_eq (s : String) : String.mk s.data = s := by
  cases s
  rfl

/-- Go's `url[len(baseURL):]` recovers the checksum when the URL really
is `baseURL ++ checksum`. -/
theorem strDrop_append (s t : String) : strDrop (s ++ t) s.length = t := by
  show String.mk ((s ++ t).data.drop s.length) = t
  rw [String.data_append]
  have hlen : s.length = s.data.length := rfl
  rw [hlen, List.drop_left]

/-- A fresh registry satisfies the invariant (both tables empty). -/
theorem InvAssets_NewAssets (env : Env) (b : String) : InvAssets env (NewAssets b) := by
  constructor
  · intro p f c hlook hcont
    simp [NewAssets, AddPreprocessor, alookup] at hlook
  · intro cs f hlook
    simp [NewAssets, AddPreprocessor, alookup] at hlook

/-- Every single registry operation preserves the invariant. -/
theorem stepOp_inv (env : Env) (fuel : Nat) (a : Assets) (op : Op)
    (h : InvAssets env a) : InvAssets env (stepOp env fuel a op) := by
  cases op with
  | addFile f p => exact InvAssets_addFile env a f p h
  | getOp p => exact (Get_preserves env fuel a p).2.2.2.2.2 h
  | getUrlOp p => exact (GetUrl_preserves env fuel a p).2.2.2.2.2 h
  | addPre ext pr => exact InvAssets_of_eq env a _ rfl rfl h
  | clearPre ext => exact InvAssets_of_eq env a _ rfl rfl h
  | getTemplateOp paths => exact (GetTemplate_effects env fuel a paths).2.2.2 h
  | serveOp url accept => exact h

/-- The invariant holds after any operation sequence. -/
theorem runOps_inv (env : Env) (fuel : Nat) :
    ∀ (ops : List Op) (a : Assets), InvAssets env a → InvAssets env (runOps env fuel a ops) := by
  intro ops
  induction ops with
  | nil => intro a h; exact h
  | cons op rest ih =>
    intro a h
    exact ih (stepOp env fuel a op) (stepOp_inv env fuel a op h)

/-- Exact effect of one operation on the version counter: `AddFile`
adds one, everything else leaves it unchanged. -/
theorem stepOp_version (env : Env) (fuel : Nat) (a : Assets) (op : Op) :
    (stepOp env fuel a op).version =
      (match op with
       | .addFile _ _ => a.version + 1
       | _ => a.version) := by
  cases op with
  | addFile f p => rfl
  | getOp p => exact (Get_preserves env fuel a p).1
  | getUrlOp p => exact (GetUrl_preserves env fuel a p).1
  | addPre ext pr => rfl
  | clearPre ext => rfl
  | getTemplateOp paths => exact (GetTemplate_effects env fuel a paths).1
  | serveOp url accept => rfl

/-- The version counter never decreases across any operation sequence. -/
theorem runOps_version_le (env : Env) (fuel : Nat) :
    ∀ (ops : List Op) (a : Assets), a.version ≤ (runOps env fuel a ops).version := by
  intro ops
  induction ops with
  | nil => intro a; exact Nat.le_refl _
  | cons op rest ih =>
    intro a
    refine Nat.le_trans ?_ (ih (stepOp env fuel a op))
    rw [stepOp_version]
    cases op <;> simp

/-- A concrete deterministic environment for exercising the theorems:
reads from a three-file store, prefixes a `G` as "compression", uses
the content length as a one-byte "digest", and parses two fixed
template sources that both define a sub-template named `header`. -/
def envT : Env :=
  { readFile := fun p =>
      if p = "f.bin" then some "X"
      else if p = "logo.png" then some "IMG"
      else if p = "style.css" then some "x url(./logo.png) y"
      else none,
    mimeByExt := fun e => if e = ".css" then "text/css" else "t",
    sniff := fun _ => "sniffed",
    gzip := fun c => String.mk ('G' :: c.data),
    sha1 := fun c => [c.length % 256],
    parse := fun name _ =>
      if name = "/tA" then .ok [("/tA", "mainA"), ("header", "treeA")]
      else if name = "/tB" then .ok [("/tB", "mainB"), ("header", "treeB")]
      else .error "syntax",
    execute := fun t name =>
      match alookup t.ns name with
      | some _ => .ok ("ran:" ++ name)
      | none => .error ("undefined:" ++ name),
    expires := "Wed, 01 Jan 2025 00:00:00 GMT" }

/-- Left inverse of `envT.gzip`. -/
def gunzipT (c : String) : String := String.mk (c.data.drop 1)

/-- One registered file at virtual path `/f`. -/
def aReg : Assets := AddFile (NewAssets "/a/") "f.bin" "/f"

/-- The registry after materializing `/f` (fingerprint `01`). -/
def aServe : Assets := (Get envT 2 aReg "/f").2

/-- The materialized record behind `/f` under `envT`. -/
def fileFbin : File :=
  { path := "f.bin", Content := some "X", ContentGZipped := "GX",
    Hash := [1], HashString := "01", ContentType := "t" }

/-- A registry with two already-materialized template sources. -/
def aTmpl : Assets :=
  { version := 0, baseURL := "/a/", preprocessors := [],
    entries := [("/tA", { path := "tA", Content := some "srcA" }),
                ("/tB", { path := "tB", Content := some "srcB" })],
    byChecksum := [], templateCache := [], templateCacheVersion := 0 }

/-- A registry with a pre-populated template cache entry, stamp in sync. -/
def aCache : Assets :=
  { version := 3, baseURL := "/a/", preprocessors := [], entries := [],
    byChecksum := [], templateCache := [(cacheKeyOf ["/x"], newShell)],
    templateCacheVersion := 3 }

/-- A style sheet and the sibling image it references, as in section 8
of the specification. -/
def aCss : Assets :=
  AddFile (AddFile (NewAssets "/a/") "logo.png" "/css/logo.png") "style.css" "/css/style.css"


theorem rwSetHeader_status (w : ResponseWriter) (k v : String) :
    (rwSetHeader w k v).status = w.status := rfl

theorem rwSetHeader_body (w : ResponseWriter) (k v : String) :
    (rwSetHeader w k v).body = w.body := rfl

theorem rwWrite_body (w : ResponseWriter) (s : String) :
    (rwWrite w s).body = w.body ++ s := rfl

theorem rwWriteHeader_body (w : ResponseWriter) (c : Nat) :
    (rwWriteHeader w c).body = w.body := by
  unfold rwWriteHeader
  split <;> rfl

/-- CLAIM C1 (counterexample): the registry `aServe` has base URL
`/a/` and one published fingerprint `01`.  The URL `/b/01` does not
have `/a/` as a prefix, yet `Serve` answers 200 and the file body, not
404: the code never compares the prefix, it only slices at the base
URL's length.  Also, the actual 404 body carries a trailing newline
(`fmt.Fprintln`), so it is not the literal `"404 - File not found"`. -/
theorem C1_counterexample :
    aServe.baseURL = "/a/" ∧
    isPreL "/a/".data "/b/01".data = false ∧
    (Serve envT aServe "/b/01" {} none).status = some 200 ∧
    (Serve envT aServe "/b/01" {} none).body = "X" ∧
    (Serve envT aServe "x" {} none).status = some 404 ∧
    (Serve envT aServe "x" {} none).body = "404 - File not found\n" ∧
    "404 - File not found\n" ≠ "404 - File not found" := by
  refine ⟨rfl, rfl, rfl, rfl, rfl, rfl, ?_⟩
  decide

/-- CLAIM C1 (amended): `Serve` responds 404 with body
`"404 - File not found"` plus a trailing newline when the URL is
shorter than the base URL or when the URL's substring from offset
`len(baseURL)` is not a known fingerprint; it never checks that the
URL actually starts with the base URL, and whenever that substring is
a published fingerprint it serves the stored content with status 200.
Only fingerprints previously published into `byChecksum` are servable. -/
theorem C1_serve (env : Env) (a : Assets) (url : String) (w : ResponseWriter)
    (r : Option String) :
    ((url.length < a.baseURL.length ∨
        alookup a.byChecksum (strDrop url a.baseURL.length) = none) →
      Serve env a url w r = httpError w 404 "404 - File not found") ∧
    ((httpError w 404 "404 - File not found").body =
      w.body ++ "404 - File not found\n") ∧
    (∀ f, ¬url.length < a.baseURL.length →
      alookup a.byChecksum (strDrop url a.baseURL.length) = some f →
      w.status = none →
      (Serve env a url w r).status = some 200 ∧
      ((r = none ∨ ∃ ae, r = some ae ∧ strContains ae "gzip" = false) →
        (Serve env a url w r).body = w.body ++ f.Content.getD "")) := by
  refine ⟨?_, ?_, ?_⟩
  · intro h
    by_cases hlen : url.length < a.baseURL.length
    · simp only [Serve, if_pos hlen]
    · cases h with
      | inl h' => exact absurd h' hlen
      | inr h' => simp only [Serve, if_neg hlen, h']
  · show (rwWrite _ _).body = _
    rw [rwWrite_body, rwWriteHeader_body, rwSetHeader_body]
    exact congrArg (fun s => w.body ++ s) (by decide)
  · intro f hlen hf hw
    constructor
    · simp only [Serve, if_neg hlen, hf]
      cases r with
      | none => simp [rwWrite, rwWriteHeader, rwSetHeader, hw]
      | some ae =>
        by_cases hg : strContains ae "gzip" = true
        · simp [hg, rwWrite, rwWriteHeader, rwSetHeader, hw]
        · simp only [Bool.not_eq_true] at hg
          simp [hg, rwWrite, rwWriteHeader, rwSetHeader, hw]
    · intro hng
      simp only [Serve, if_neg hlen, hf]
      cases hng with
      | inl h' =>
        subst h'
        rw [rwWrite_body, rwSetHeader_body, rwSetHeader_body]
      | inr h' =>
        obtain ⟨ae, hae, hcg⟩ := h'
        subst hae
        simp [hcg, rwWrite, rwWriteHeader, rwSetHeader]

/-- CLAIM C1 (witness). -/
theorem C1_serve_witness :
    Serve envT aServe "/a/zz" {} none = httpError {} 404 "404 - File not found" ∧
    (Serve envT aServe "/a/01" {} none).status = some 200 :=
  ⟨(C1_serve envT aServe "/a/zz" {} none).1 (Or.inr (by decide)),
   ((C1_serve envT aServe "/a/01" {} none).2.2 fileFbin (by decide) (by decide) rfl).1⟩

/-- CLAIM C2: the version counter is incremented exactly once by
`AddFile`, is untouched by `Get`, `GetUrl`, `GetTemplate`,
`AddPreprocessor` and `ClearPreprocessors` (materialization never
changes it), and is monotonically non-decreasing over any operation
sequence for the life of the registry. -/
theorem C2_version_discipline (env : Env) (fuel : Nat) :
    (∀ a f p, (AddFile a f p).version = a.version + 1) ∧
    (∀ a vp, (Get env fuel a vp).2.version = a.version) ∧
    (∀ a vp, (GetUrl env fuel a vp).2.version = a.version) ∧
    (∀ a paths, (GetTemplate env fuel a paths).2.version = a.version) ∧
    (∀ a ext p, (AddPreprocessor a ext p).version = a.version) ∧
    (∀ a ext, (ClearPreprocessors a ext).version = a.version) ∧
    (∀ a op, (stepOp env fuel a op).version =
      (match op with
       | .addFile _ _ => a.version + 1
       | _ => a.version)) ∧
    (∀ a ops, a.version ≤ (runOps env fuel a ops).version) :=
  ⟨fun _ _ _ => rfl,
   fun a vp => (Get_preserves env fuel a vp).1,
   fun a vp => (GetUrl_preserves env fuel a vp).1,
   fun a paths => (GetTemplate_effects env fuel a paths).1,
   fun _ _ _ => rfl,
   fun _ _ => rfl,
   fun a op => stepOp_version env fuel a op,
   fun a ops => runOps_version_le env fuel ops a⟩

/-- CLAIM C3 (counterexample): materializing `/f` publishes the entry
into `byChecksum` (fingerprint `01`) while its `Content` field is still
unset; only afterwards does `Get` assign the content.  So the
materialized fields are not set as a unit before the entry becomes
observable through the checksum table. -/
theorem C3_counterexample :
    ((publishPointState envT 2 aReg "/f").map
      (fun mid => (alookup mid.byChecksum "01").map File.Content)) =
        some (some none) ∧
    (alookup (Get envT 2 aReg "/f").2.byChecksum "01").map File.Content =
      some (some "X") := ⟨rfl, rfl⟩

/-- CLAIM C3 (amended): after any sequence of completed operations on a
fresh registry, every entry reachable through `byChecksum` is fully
materialized with mutually consistent fields (content set, compressed
form and fingerprint derived from that content, keyed by its own
fingerprint).  However, inside a single `Get` the entry is inserted
into `byChecksum` one step before `Content` is assigned: at the
publication instant every materialized field except `Content` is
already set, and `Content` is still unset (it is set last). -/
theorem C3_checksum_invariant (env : Env) (fuel : Nat) (b : String) :
    InvAssets env (NewAssets b) ∧
    (∀ a op, InvAssets env a → InvAssets env (stepOp env fuel a op)) ∧
    (∀ a ops, InvAssets env a → InvAssets env (runOps env fuel a ops)) ∧
    (∀ a vp mid, publishPointState env fuel a vp = some mid →
      ∃ cs f c, alookup mid.byChecksum cs = some f ∧ f.Content = none ∧
        f.ContentGZipped = env.gzip c ∧ f.Hash = env.sha1 c ∧
        f.HashString = hexEncode (env.sha1 c) ∧ cs = hexEncode (env.sha1 c)) :=
  ⟨InvAssets_NewAssets env b,
   fun a op h => stepOp_inv env fuel a op h,
   fun a ops h => runOps_inv env fuel ops a h,
   fun a vp mid h => publishPoint_content_unset env fuel a vp mid h⟩

/-- CLAIM C3 (witness). -/
theorem C3_checksum_invariant_witness :
    InvAssets envT (runOps envT 2 (NewAssets "/a/")
      [Op.addFile "f.bin" "/f", Op.getOp "/f"]) :=
  (C3_checksum_invariant envT 2 "/a/").2.2.1 (NewAssets "/a/")
    [Op.addFile "f.bin" "/f", Op.getOp "/f"]
    (C3_checksum_invariant envT 2 "/a/").1

/-- CLAIM C4: if `Get` succeeds (for a registry satisfying the
invariant), a second `Get` of the same virtual path returns the very
same record with the registry unchanged (no recomputation), so both
calls yield identical fingerprints and identical content bytes; and
the fingerprint is the hex-encoded sha1 digest of the entry's final
post-preprocessing content (the compressed field being the gzip of
that same content), not of the raw source bytes. -/
theorem C4_get_deterministic (env : Env) (fuel k : Nat) (a : Assets)
    (vp : String) (file : File) (a' : Assets)
    (hInv : InvAssets env a) (h : Get env fuel a vp = (.ok file, a')) :
    Get env (k + 1) a' vp = (.ok file, a') ∧
    ∃ c, file.Content = some c ∧
      file.HashString = hexEncode (env.sha1 c) ∧
      file.Hash = env.sha1 c ∧
      file.ContentGZipped = env.gzip c := by
  obtain ⟨hlook, hsome, hcons⟩ := Get_ok_spec env fuel a vp file a' h
  obtain ⟨c, hC, hG, hH, hS⟩ := hcons hInv
  exact ⟨Get_idempotent env fuel k a vp file a' h, c, hC, hS, hH, hG⟩

/-- CLAIM C4 (witness). -/
theorem C4_get_deterministic_witness :
    Get envT 3 aServe "/f" = (.ok fileFbin, aServe) ∧
    ∃ c, fileFbin.Content = some c ∧
      fileFbin.HashString = hexEncode (envT.sha1 c) ∧
      fileFbin.Hash = envT.sha1 c ∧
      fileFbin.ContentGZipped = envT.gzip c :=
  C4_get_deterministic envT 2 2 aReg "/f" fileFbin aServe
    (InvAssets_addFile envT (NewAssets "/a/") "f.bin" "/f"
      (InvAssets_NewAssets envT "/a/"))
    rfl

/-- When the registry version has moved, `GetTemplate` behaves exactly
as if called on the registry with its template cache wholly discarded
and re-stamped: the stale cache cannot serve any hit. -/
theorem GetTemplate_reset_eq (env : Env) (fuel : Nat) (a : Assets)
    (paths : List String) (hv : a.version ≠ a.templateCacheVersion) :
    GetTemplate env fuel a paths = GetTemplate env fuel (resetCache a) paths := by
  have h2 : ¬((resetCache a).version ≠ (resetCache a).templateCacheVersion) := by
    simp [resetCache]
  simp only [GetTemplate, if_pos hv, if_neg h2]

/-- CLAIM C6: if the registry's version differs from the template
cache's stamped version, `GetTemplate` discards the entire cache and
re-stamps it before the lookup (so it computes exactly what it would
compute on the reset registry, whose cache is empty); when the
versions match and the joined-path key is cached, the cached template
is returned as-is with no recompilation and no state change; and after
an intervening `AddFile` the versions necessarily differ, so a
compile never reuses the previously cached namespace. -/
theorem C6_cache_invalidation (env : Env) (fuel : Nat) (a : Assets)
    (paths : List String) :
    (a.version ≠ a.templateCacheVersion →
      (resetCache a).templateCache = [] ∧
      (resetCache a).templateCacheVersion = a.version ∧
      GetTemplate env fuel a paths = GetTemplate env fuel (resetCache a) paths) ∧
    (∀ t, a.version = a.templateCacheVersion →
      alookup a.templateCache (cacheKeyOf paths) = some t →
      GetTemplate env fuel a paths = (.ok t, a)) ∧
    (∀ f p, a.version = a.templateCacheVersion →
      (resetCache (AddFile a f p)).templateCache = [] ∧
      GetTemplate env fuel (AddFile a f p) paths =
        GetTemplate env fuel (resetCache (AddFile a f p)) paths) := by
  refine ⟨?_, ?_, ?_⟩
  · intro hv
    exact ⟨rfl, rfl, GetTemplate_reset_eq env fuel a paths hv⟩
  · intro t hv hc
    have hnv : ¬(a.version ≠ a.templateCacheVersion) := by simp [hv]
    simp only [GetTemplate, if_neg hnv, hc]
  · intro f p hv
    refine ⟨rfl, GetTemplate_reset_eq env fuel (AddFile a f p) paths ?_⟩
    show ¬((AddFile a f p).version = (AddFile a f p).templateCacheVersion)
    show ¬(a.version + 1 = a.templateCacheVersion)
    omega

/-- CLAIM C6 (witness). -/
theorem C6_cache_invalidation_witness :
    GetTemplate envT 1 aCache ["/x"] = (.ok newShell, aCache) ∧
    GetTemplate envT 1 (AddFile aCache "y.html" "/y") ["/x"] =
      GetTemplate envT 1 (resetCache (AddFile aCache "y.html" "/y")) ["/x"] :=
  ⟨(C6_cache_invalidation envT 1 aCache ["/x"]).2.1 newShell rfl rfl,
   ((C6_cache_invalidation envT 1 aCache ["/x"]).2.2 "y.html" "/y" rfl).2⟩

theorem rwWrite_headers (w : ResponseWriter) (s : String) :
    (rwWrite w s).headers = w.headers := by
  unfold rwWrite rwWriteHeader
  split <;> rfl

/-- CLAIM C8: serving a published fingerprint whose stored fields are
consistent (as the registry invariant guarantees): with an
`Accept-Encoding` value mentioning `gzip`, the response carries
`Content-Encoding: gzip` and its body is exactly the stored compressed
content — the gzip of the materialized content, so any left inverse of
the compressor recovers that content from the body; without a gzip
mention, the body is the uncompressed materialized content verbatim
and the `Content-Encoding` header is left untouched. -/
theorem C8_gzip_negotiation (env : Env) (a : Assets) (cs : String) (f : File)
    (c : String) (w : ResponseWriter) (accept : String)
    (hf : alookup a.byChecksum cs = some f) (hc : f.Content = some c)
    (hgz : f.ContentGZipped = env.gzip c) :
    (strContains accept "gzip" = true →
      (Serve env a (a.baseURL ++ cs) w (some accept)).body = w.body ++ env.gzip c ∧
      alookup (Serve env a (a.baseURL ++ cs) w (some accept)).headers
        "Content-Encoding" = some "gzip" ∧
      (∀ gz : String → String, (∀ x, gz (env.gzip x) = x) → w.body = "" →
        gz (Serve env a (a.baseURL ++ cs) w (some accept)).body = c)) ∧
    (strContains accept "gzip" = false →
      (Serve env a (a.baseURL ++ cs) w (some accept)).body = w.body ++ c ∧
      alookup (Serve env a (a.baseURL ++ cs) w (some accept)).headers
        "Content-Encoding" = alookup w.headers "Content-Encoding") := by
  have hlen : ¬((a.baseURL ++ cs).length < a.baseURL.length) := by
    rw [String.length_append]
    omega
  have hcs : strDrop (a.baseURL ++ cs) a.baseURL.length = cs :=
    strDrop_append a.baseURL cs
  constructor
  · intro hg
    have hbody : (Serve env a (a.baseURL ++ cs) w (some accept)).body =
        w.body ++ env.gzip c := by
      simp only [Serve, if_neg hlen, hcs, hf, hg, if_pos]
      rw [rwWrite_body, rwSetHeader_body, rwSetHeader_body, rwSetHeader_body, hgz]
    refine ⟨hbody, ?_, ?_⟩
    · simp only [Serve, if_neg hlen, hcs, hf, hg, if_pos]
      rw [rwWrite_headers]
      simp [rwSetHeader, alookup_aset]
    · intro gz hinv hwb
      rw [hbody, hwb]
      have : ("" : String) ++ env.gzip c = env.gzip c := by simp
      rw [this, hinv]
  · intro hg
    constructor
    · simp only [Serve, if_neg hlen, hcs, hf, hg, Bool.false_eq_true, if_false]
      rw [rwWrite_body, rwSetHeader_body, rwSetHeader_body, hc]
      rfl
    · simp only [Serve, if_neg hlen, hcs, hf, hg, Bool.false_eq_true, if_false]
      rw [rwWrite_headers]
      simp only [rwSetHeader]
      rw [alookup_aset, alookup_aset]
      have h1 : ¬(("Content-Encoding" : String) = "Expires") := by decide
      have h2 : ¬(("Content-Encoding" : String) = "Content-Type") := by decide
      simp [h1, h2]

/-- CLAIM C8 (witness). -/
theorem C8_gzip_negotiation_witness :
    (Serve envT aServe ("/a/" ++ "01") {} (some "gzip")).body = "" ++ envT.gzip "X" ∧
    gunzipT (Serve envT aServe ("/a/" ++ "01") {} (some "gzip")).body = "X" ∧
    (Serve envT aServe ("/a/" ++ "01") {} (some "deflate")).body = "" ++ "X" := by
  have hinv : ∀ x, gunzipT (envT.gzip x) = x := by
    intro x
    cases x
    rfl
  have h1 := (C8_gzip_negotiation envT aServe "01" fileFbin "X" {} "gzip"
    (by decide) rfl rfl).1 (by decide)
  have h2 := (C8_gzip_negotiation envT aServe "01" fileFbin "X" {} "deflate"
    (by decide) rfl rfl).2 (by decide)
  exact ⟨h1.1, h1.2.2 gunzipT hinv rfl, h2.1⟩

/-- CLAIM C9 (counterexample): the `asset` and `assetinline` template
functions index `virtualPath[0]`, so on the empty string — which does
not begin with a path separator — they panic with an index-out-of-range
runtime error instead of returning an Argument Error. -/
theorem C9_counterexample :
    (assetFn envT 1 (NewAssets "/a/") "").1 = FnResult.panicked ∧
    (assetinlineFn envT 1 (NewAssets "/a/") "").1 = FnResult.panicked ∧
    FnResult.panicked ≠ FnResult.err "path argument must start with '/'" := by
  refine ⟨rfl, rfl, ?_⟩
  decide

/-- CLAIM C9 (amended): for every NON-empty argument that does not
begin with `'/'`, both template functions return the Argument Error
`"path argument must start with '/'"`; for arguments beginning with
`'/'` they return the asset's public URL, respectively its raw
materialized content (on the empty string they panic instead, see the
counterexample). -/
theorem C9_argument_guard (env : Env) (fuel : Nat) (a : Assets) (s : String)
    (hne : s ≠ "") :
    (s.data.head? ≠ some '/' →
      (assetFn env fuel a s).1 = .err "path argument must start with '/'" ∧
      (assetinlineFn env fuel a s).1 = .err "path argument must start with '/'") ∧
    (s.data.head? = some '/' →
      (∀ u a', GetUrl env fuel a s = (.ok u, a') →
        assetFn env fuel a s = (.ok u, a')) ∧
      (∀ f a', Get env fuel a s = (.ok f, a') →
        assetinlineFn env fuel a s = (.ok (f.Content.getD ""), a'))) := by
  cases hd : s.data with
  | nil =>
    exfalso
    apply hne
    rw [← String.mk_data_eq s, hd]
  | cons ch rest =>
    constructor
    · intro hns
      have hch : ¬(ch = '/') := by
        intro h
        apply hns
        rw [h]
        rfl
      constructor
      · simp [assetFn, hd, hch]
      · simp [assetinlineFn, hd, hch]
    · intro hsl
      have hch : ch = '/' := Option.some.inj hsl
      constructor
      · intro u a' hgu
        simp [assetFn, hd, hch, hgu]
      · intro f a' hg
        simp [assetinlineFn, hd, hch, hg]

/-- CLAIM C9 (witness). -/
theorem C9_argument_guard_witness :
    (assetFn envT 1 (NewAssets "/a/") "x").1 =
      FnResult.err "path argument must start with '/'" ∧
    assetFn envT 2 aServe "/f" = (.ok "/a/01", aServe) :=
  ⟨((C9_argument_guard envT 1 (NewAssets "/a/") "x" (by decide)).1 (by decide)).1,
   ((C9_argument_guard envT 2 aServe "/f" (by decide)).2 (by decide)).1 "/a/01" aServe rfl⟩

/-- CLAIM C10: `RenderTemplate` selects the sub-template name by
indexing the last element of the path list: on the empty list the
index `len-1 = -1` is out of bounds and the call panics (the `none`
result) rather than returning an error; for every non-empty list the
last element exists and the call delegates to `RenderNamedTemplate`
with it, so the out-of-bounds branch is unreachable. -/
theorem C10_render_last_name (env : Env) (fuel : Nat) (a : Assets)
    (w : ResponseWriter) :
    RenderTemplate env fuel a [] w = none ∧
    (∀ paths : List String, paths ≠ [] → ∃ name,
      paths.getLast? = some name ∧
      RenderTemplate env fuel a paths w =
        some (RenderNamedTemplate env fuel a paths name w)) := by
  refine ⟨rfl, ?_⟩
  intro paths hne
  cases hl : paths.getLast? with
  | none => exact absurd (List.getLast?_eq_none_iff.mp hl) hne
  | some name =>
    refine ⟨name, rfl, ?_⟩
    simp [RenderTemplate, hl]

/-- CLAIM C10 (witness). -/
theorem C10_render_last_name_witness :
    RenderTemplate envT 1 (NewAssets "/a/") [] {} = none ∧
    ∃ name, (["/x"] : List String).getLast? = some name ∧
      RenderTemplate envT 1 (NewAssets "/a/") ["/x"] {} =
        some (RenderNamedTemplate envT 1 (NewAssets "/a/") ["/x"] name {}) :=
  ⟨(C10_render_last_name envT 1 (NewAssets "/a/") {}).1,
   (C10_render_last_name envT 1 (NewAssets "/a/") {}).2 ["/x"] (by decide)⟩

/-- CLAIM C7: the reference rewriter roots every extracted reference by
`getRooted`: a reference starting with the path separator is used
as-is, any other is joined to the directory of the current virtual
path; and concretely, preprocessing the style sheet `/css/style.css`
(content `x url(./logo.png) y`, with the image registered at the
resolved path `/css/logo.png`) produces content that contains
`url(<baseURL><fingerprint-of-logo.png>)` and no longer contains the
literal relative reference. -/
theorem C7_reference_rewriting :
    (∀ fromFile target : String, target ≠ "" →
      (target.data.head? = some '/' → getRooted fromFile target = some target) ∧
      (target.data.head? ≠ some '/' →
        getRooted fromFile target = some (goJoin (goDir fromFile) target))) ∧
    goJoin (goDir "/css/style.css") "./logo.png" = "/css/logo.png" ∧
    (Get envT 30 aCss "/css/style.css").1.toOption.bind File.Content =
      some ("x url(" ++ "/a/" ++ hexEncode (envT.sha1 "IMG") ++ ") y") ∧
    ((Get envT 30 aCss "/css/style.css").1.toOption.bind File.Content).map
      (fun s => strContains s "./logo.png") = some false ∧
    ((Get envT 30 aCss "/css/style.css").1.toOption.bind File.Content).map
      (fun s => strContains s ("/a/" ++ hexEncode (envT.sha1 "IMG"))) = some true := by
  refine ⟨?_, by decide, by decide, by decide, by decide⟩
  intro fromFile target hne
  cases hd : target.data with
  | nil =>
    exfalso
    apply hne
    rw [← String.mk_data_eq target, hd]
  | cons ch rest =>
    constructor
    · intro hsl
      have hch : ch = '/' := Option.some.inj hsl
      simp [getRooted, hd, hch]
    · intro hns
      have hch : ¬(ch = '/') := by
        intro h
        apply hns
        rw [h]
        rfl
      simp [getRooted, hd, hch]

/-- CLAIM C7 (witness). -/
theorem C7_reference_rewriting_witness :
    getRooted "/css/style.css" "/x.png" = some "/x.png" ∧
    getRooted "/css/style.css" "./logo.png" =
      some (goJoin (goDir "/css/style.css") "./logo.png") :=
  ⟨(C7_reference_rewriting.1 "/css/style.css" "/x.png" (by decide)).1 (by decide),
   (C7_reference_rewriting.1 "/css/style.css" "./logo.png" (by decide)).2 (by decide)⟩

/-- CLAIM C5: compiling an ordered path list merges each unit's named
sub-templates first-wins: with both sources defining a sub-template
named `header`, compiling `[A, B]` keeps A's definition and compiling
`[B, A]` keeps B's — a later path cannot override a name contributed
by an earlier one. -/
theorem C5_template_merge (env : Env) (fuel : Nat) (a : Assets)
    (A B cA cB uA uB tA tB : String) (fileA fileB : File)
    (hA : alookup a.entries A = some fileA) (hcA : fileA.Content = some cA)
    (hB : alookup a.entries B = some fileB) (hcB : fileB.Content = some cB)
    (hAe : A ≠ "") (hBe : B ≠ "") (hAB : A ≠ B)
    (hAh : A ≠ "header") (hBh : B ≠ "header")
    (hAs : A ≠ "temp-outer-template-shell") (hBs : B ≠ "temp-outer-template-shell")
    (hpA : env.parse A cA = .ok [(A, uA), ("header", tA)])
    (hpB : env.parse B cB = .ok [(B, uB), ("header", tB)])
    (hv : a.version = a.templateCacheVersion)
    (hk1 : alookup a.templateCache (cacheKeyOf [A, B]) = none)
    (hk2 : alookup a.templateCache (cacheKeyOf [B, A]) = none) :
    (∃ t a', GetTemplate env (fuel + 1) a [A, B] = (.ok t, a') ∧
      alookup t.ns "header" = some (some tA)) ∧
    (∃ t a', GetTemplate env (fuel + 1) a [B, A] = (.ok t, a') ∧
      alookup t.ns "header" = some (some tB)) := by
  have hnv : ¬(a.version ≠ a.templateCacheVersion) := by simp [hv]
  have hGetA : Get env (fuel + 1) a A = (.ok fileA, a) := by
    simp only [Get, hA, hcA]
  have hGetB : Get env (fuel + 1) a B = (.ok fileB, a) := by
    simp only [Get, hB, hcB]
  have hAh' : ("header" : String) ≠ A := Ne.symm hAh
  have hBh' : ("header" : String) ≠ B := Ne.symm hBh
  have hAB' : B ≠ A := Ne.symm hAB
  have hsh : ¬(("header" : String) = "temp-outer-template-shell") := by decide
  constructor
  · have hb : buildTemplate env (fuel + 1) a [A, B] newShell =
        (.ok (mergeSubs (mergeSubs newShell [(A, uA), ("header", tA)])
          [(B, uB), ("header", tB)]), a) := by
      simp only [buildTemplate, if_neg hAe, if_neg hBe, hGetA, hGetB, hcA, hcB,
        Option.getD_some, hpA, hpB]
    simp only [GetTemplate, if_neg hnv, hk1, hb]
    refine ⟨_, _, rfl, ?_⟩
    simp [mergeSubs, newShell, shellName, List.foldl, alookup,
      hAs, hBs, hAh, hBh, hAh', hBh', hAB, hAB', hsh]
  · have hb : buildTemplate env (fuel + 1) a [B, A] newShell =
        (.ok (mergeSubs (mergeSubs newShell [(B, uB), ("header", tB)])
          [(A, uA), ("header", tA)]), a) := by
      simp only [buildTemplate, if_neg hAe, if_neg hBe, hGetA, hGetB, hcA, hcB,
        Option.getD_some, hpA, hpB]
    simp only [GetTemplate, if_neg hnv, hk2, hb]
    refine ⟨_, _, rfl, ?_⟩
    simp [mergeSubs, newShell, shellName, List.foldl, alookup,
      hAs, hBs, hAh, hBh, hAh', hBh', hAB, hAB', hsh]

/-- CLAIM C5 (witness). -/
theorem C5_template_merge_witness :
    (∃ t a', GetTemplate envT 1 aTmpl ["/tA", "/tB"] = (.ok t, a') ∧
      alookup t.ns "header" = some (some "treeA")) ∧
    (∃ t a', GetTemplate envT 1 aTmpl ["/tB", "/tA"] = (.ok t, a') ∧
      alookup t.ns "header" = some (some "treeB")) :=
  C5_template_merge envT 0 aTmpl "/tA" "/tB" "srcA" "srcB" "mainA" "mainB"
    "treeA" "treeB"
    { path := "tA", Content := some "srcA" } { path := "tB", Content := some "srcB" }
    (by decide) rfl (by decide) rfl (by decide) (by decide) (by decide)
    (by decide) (by decide) (by decide) (by decide) rfl rfl
    rfl rfl rfl
